import Mathlib

/-
Verification of the Sitemap-Crawler program (src/main.py).

The Python code is shallowly embedded: Python strings are modelled as
lists of characters (type Str below), the relevant pieces of
urllib.parse (urlsplit, urlunsplit, urlparse, urljoin, quote) are
translated from the CPython implementation, and the crawler's own
helpers (_prepare_url, _resolve_url_path, _clean_link,
_convert_html_special_chars, _get_date_from_response, _exclude_url,
the per-link filtering loop of Crawler.run, and Sitemap.create_sitemap)
are translated line by line.  External effects (the network fetch, the
robots parser, datetime.strptime) are parameters of the model.
-/

/-- Python strings are sequences of unicode code points. -/
abbrev Str := List Char

/-- Is the first list a prefix of the second (Python str.startswith). -/
def listPref : Str → Str → Bool
  | [], _ => true
  | _ :: _, [] => false
  | p :: ps, c :: cs => p == c && listPref ps cs

/-- Python substring containment (`pat in s`). -/
def containsSubCore (pat : Str) : Str → Bool
  | [] => listPref pat []
  | c :: cs => listPref pat (c :: cs) || containsSubCore pat cs

/-- Number of occurrences of an element in a list. -/
def countOcc (u : Str) (l : List Str) : Nat := (l.filter (fun x => x == u)).length

/-- Split a list at the first occurrence of a character; the character is
dropped (Python str.split(c, 1) / str.find). -/
def splitAtFirst (t : Char) : Str → Option (Str × Str)
  | [] => none
  | c :: cs =>
    if c = t then some ([], cs)
    else
      match splitAtFirst t cs with
      | none => none
      | some (l, r) => some (c :: l, r)

/-- Split a list at the last occurrence of a character (Python str.rfind). -/
def splitAtLast (t : Char) : Str → Option (Str × Str)
  | [] => none
  | c :: cs =>
    match splitAtLast t cs with
    | some (l, r) => some (c :: l, r)
    | none => if c = t then some ([], cs) else none

/-- Characters allowed in a URL scheme (urllib.parse.scheme_chars). -/
def isSchemeChar (c : Char) : Bool := c.isAlpha || c.isDigit || c == '+' || c == '-' || c == '.'

/-- Result of urllib.parse.urlsplit: (scheme, netloc, path, query, fragment). -/
structure SplitResult where
  scheme : Str
  netloc : Str
  path : Str
  query : Str
  fragment : Str
deriving DecidableEq

/-- Characters that terminate the netloc in urllib's _splitnetloc. -/
def isNetlocDelim (c : Char) : Bool := c == '/' || c == '?' || c == '#'

/-- urllib.parse.urlsplit with a default scheme (the second positional
argument of urlsplit).  Mirrors CPython: tab/CR/LF bytes are removed; a
scheme is recognised when the first ':' is preceded by a nonempty run of
scheme characters starting with an ASCII letter and is lowercased; a
leading '//' starts the netloc, which runs to the first '/', '?' or '#';
the fragment is split off at the first '#', then the query at the first
'?'.  CPython 3.11 first lstrips WHATWG C0-control-or-space characters
(code points up to 32).  (The IPv6 bracket ValueError of CPython is not
modelled; no input considered here contains brackets.) -/
def urlsplitD (defaultScheme : Str) (rawUrl : Str) : SplitResult :=
  let url := (rawUrl.dropWhile (fun c => c.toNat ≤ 32)).filter
    (fun c => !(c == '\t' || c == '\r' || c == '\n'))
  let sp :=
    match splitAtFirst ':' url with
    | some (b :: bs, rest) =>
        if b.isAlpha && (b :: bs).all isSchemeChar then ((b :: bs).map Char.toLower, rest)
        else (defaultScheme, url)
    | _ => (defaultScheme, url)
  let url1 := sp.2
  let np :=
    match url1 with
    | '/' :: '/' :: rest =>
        (rest.takeWhile (fun c => !isNetlocDelim c), rest.dropWhile (fun c => !isNetlocDelim c))
    | _ => (([] : Str), url1)
  let uf :=
    match splitAtFirst '#' np.2 with
    | some (l, r) => (l, r)
    | none => (np.2, ([] : Str))
  let uq :=
    match splitAtFirst '?' uf.1 with
    | some (l, r) => (l, r)
    | none => (uf.1, ([] : Str))
  ⟨sp.1, np.1, uq.1, uq.2, uf.2⟩

/-- urllib.parse.urlsplit with the usual empty default scheme. -/
def urlsplitCore (rawUrl : Str) : SplitResult := urlsplitD [] rawUrl

/-- urllib.parse.uses_netloc (CPython 3.11). -/
def uses_netloc : List Str :=
  ["".data, "ftp".data, "http".data, "gopher".data, "nntp".data, "telnet".data,
   "imap".data, "wais".data, "file".data, "mms".data, "https".data,
   "shttp".data, "snews".data, "prospero".data, "rtsp".data, "rtsps".data,
   "rtspu".data, "rsync".data, "svn".data, "svn+ssh".data, "sftp".data,
   "nfs".data, "git".data, "git+ssh".data, "ws".data, "wss".data]

/-- urllib.parse.urlunsplit (CPython 3.11: the '//' is added when there is
a netloc, or when the scheme uses a netloc and the path does not already
start with '//'). -/
def urlunsplit (r : SplitResult) : Str :=
  let url :=
    if r.netloc ≠ [] ∨
       (r.scheme ≠ [] ∧ uses_netloc.any (fun s => s == r.scheme) = true ∧
        ¬ listPref ['/', '/'] r.path = true) then
      let p :=
        match r.path with
        | [] => ([] : Str)
        | '/' :: _ => r.path
        | _ => '/' :: r.path
      '/' :: '/' :: (r.netloc ++ p)
    else r.path
  let url1 := if r.scheme ≠ [] then r.scheme ++ ':' :: url else url
  let url2 := if r.query ≠ [] then url1 ++ '?' :: r.query else url1
  if r.fragment ≠ [] then url2 ++ '#' :: r.fragment else url2

/-- Result of urllib.parse.urlparse: urlsplit plus the params component
split off the last path segment. -/
structure ParseResult where
  scheme : Str
  netloc : Str
  path : Str
  params : Str
  query : Str
  fragment : Str
deriving DecidableEq

/-- urllib.parse._splitparams: split ';params' off the last path segment.
Only called when ';' occurs in the path. -/
def splitparams (url : Str) : Str × Str :=
  match splitAtLast '/' url with
  | some (before, after) =>
      (match splitAtFirst ';' after with
       | some (l, r) => (before ++ '/' :: l, r)
       | none => (url, []))
  | none =>
      match splitAtFirst ';' url with
      | some (l, r) => (l, r)
      | none => (url, [])

/-- urllib.parse.uses_relative (CPython 3.11). -/
def uses_relative : List Str :=
  ["".data, "ftp".data, "http".data, "gopher".data, "nntp".data, "imap".data,
   "wais".data, "file".data, "https".data, "shttp".data, "mms".data,
   "prospero".data, "rtsp".data, "rtsps".data, "rtspu".data, "sftp".data,
   "svn".data, "svn+ssh".data, "ws".data, "wss".data]

/-- urllib.parse.uses_params (CPython 3.11). -/
def uses_params : List Str :=
  ["".data, "ftp".data, "hdl".data, "prospero".data, "http".data, "imap".data,
   "https".data, "shttp".data, "rtsp".data, "rtsps".data, "rtspu".data,
   "sip".data, "sips".data, "mms".data, "sftp".data, "tel".data]

/-- urllib.parse.urlparse with a default scheme. -/
def urlparseD (defaultScheme : Str) (rawUrl : Str) : ParseResult :=
  let r := urlsplitD defaultScheme rawUrl
  if (uses_params.any (fun s => s == r.scheme)) && r.path.any (fun c => c == ';') then
    let pp := splitparams r.path
    ⟨r.scheme, r.netloc, pp.1, pp.2, r.query, r.fragment⟩
  else ⟨r.scheme, r.netloc, r.path, [], r.query, r.fragment⟩

/-- urllib.parse.urlunparse. -/
def urlunparse (p : ParseResult) : Str :=
  let url := if p.params ≠ [] then p.path ++ ';' :: p.params else p.path
  urlunsplit ⟨p.scheme, p.netloc, url, p.query, p.fragment⟩

/-- Python str.split('/') on a list of characters: helper returning the
first segment and the remaining segments. -/
def splitSlashAux : Str → Str × List Str
  | [] => ([], [])
  | c :: cs =>
    let r := splitSlashAux cs
    if c = '/' then ([], r.1 :: r.2) else (c :: r.1, r.2)

/-- Python str.split('/'); the result is always nonempty. -/
def splitOnSlash (p : Str) : List Str :=
  (splitSlashAux p).1 :: (splitSlashAux p).2

/-- Python '/'.join(segments). -/
def joinWithSlash : List Str → Str
  | [] => []
  | [s] => s
  | s :: t :: rest => s ++ '/' :: joinWithSlash (t :: rest)

/-- urllib.parse.urljoin, translated from CPython. -/
def urljoin (base url : Str) : Str :=
  if base = [] then url
  else if url = [] then base
  else
    let b := urlparseD [] base
    let u := urlparseD b.scheme url
    if ¬ (u.scheme = b.scheme ∧ uses_relative.any (fun s => s == u.scheme) = true) then url
    else
      let inNetloc := uses_netloc.any (fun s => s == u.scheme)
      if inNetloc = true ∧ u.netloc ≠ [] then urlunparse u
      else
        let netloc := if inNetloc then b.netloc else u.netloc
        if u.path = [] ∧ u.params = [] then
          let q := if u.query = [] then b.query else u.query
          urlunparse ⟨u.scheme, netloc, b.path, b.params, q, u.fragment⟩
        else
          let baseParts0 := splitOnSlash b.path
          let baseParts := if baseParts0.getLastD [] ≠ [] then baseParts0.dropLast else baseParts0
          let segments :=
            if listPref ['/'] u.path then splitOnSlash u.path
            else
              match baseParts ++ splitOnSlash u.path with
              | [] => []
              | [x] => [x]
              | x :: rest => x :: ((rest.dropLast.filter (fun s => !s.isEmpty)) ++ [rest.getLastD []])
          let resolvedPath := segments.foldl
            (fun acc seg =>
              if seg = ['.', '.'] then acc.dropLast
              else if seg = ['.'] then acc
              else acc ++ [seg]) []
          let resolvedPath1 :=
            if segments.getLastD [] = ['.'] ∨ segments.getLastD [] = ['.', '.'] then
              resolvedPath ++ [([] : Str)]
            else resolvedPath
          let joined := joinWithSlash resolvedPath1
          urlunparse ⟨u.scheme, netloc, (if joined = [] then ['/'] else joined), u.params, u.query, u.fragment⟩

/-- UTF-8 encoding of one code point, as byte values. -/
def utf8Bytes (c : Char) : List Nat :=
  let n := c.toNat
  if n < 128 then [n]
  else if n < 2048 then [192 + n / 64, 128 + n % 64]
  else if n < 65536 then [224 + n / 4096, 128 + n / 64 % 64, 128 + n % 64]
  else [240 + n / 262144, 128 + n / 4096 % 64, 128 + n / 64 % 64, 128 + n % 64]

/-- urllib.parse.quote's always-safe bytes: ASCII letters, digits, and
'_' (95), '.' (46), '-' (45), '~' (126). -/
def alwaysSafeByte (n : Nat) : Bool :=
  decide ((65 ≤ n ∧ n ≤ 90) ∨ (97 ≤ n ∧ n ≤ 122) ∨ (48 ≤ n ∧ n ≤ 57) ∨
          n = 95 ∨ n = 46 ∨ n = 45 ∨ n = 126)

/-- Uppercase hexadecimal digit. -/
def hexUpper (n : Nat) : Char := if n < 10 then Char.ofNat (48 + n) else Char.ofNat (55 + n)

/-- Percent-encode one byte unless it is safe; '/' (47) is in the default
safe set of quote. -/
def quoteByte (n : Nat) : Str :=
  if alwaysSafeByte n || n == 47 then [Char.ofNat n] else ['%', hexUpper (n / 16), hexUpper (n % 16)]

/-- urllib.parse.quote with the default safe='/' :
UTF-8 encode, then percent-encode each unsafe byte. -/
def pyQuote (s : Str) : Str := s.flatMap (fun c => (utf8Bytes c).flatMap quoteByte)

/-- Crawler.invalid_formats: URL paths ending in one of these extensions
are never fetched. -/
def invalid_formats : List Str :=
  [".epub".data, ".mobi".data, ".docx".data, ".doc".data, ".opf".data,
   ".7z".data, ".ibooks".data, ".cbr".data, ".avi".data, ".mkv".data,
   ".mp4".data, ".jpg".data, ".jpeg".data, ".png".data, ".gif".data,
   ".pdf".data, ".iso".data, ".rar".data, ".tar".data, ".tgz".data,
   ".zip".data, ".dmg".data, ".exe".data]

/-- Python str.endswith for a single suffix. -/
def listSuffix (t s : Str) : Bool := listPref t.reverse s.reverse

/-- Python str.endswith with a tuple of suffixes. -/
def endsWithAny (s : Str) (ts : List Str) : Bool := ts.any (fun t => listSuffix t s)

/-- Crawler._prepare_url: urlsplit, percent-encode the path component,
urlunsplit. -/
def prepare_url (u : Str) : Str :=
  let r := urlsplitCore u
  urlunsplit ⟨r.scheme, r.netloc, pyQuote r.path, r.query, r.fragment⟩

/-- The segment list built by Crawler._resolve_url_path:
`[segment + '/' for segment in segments[:-1]] + [segments[-1]]`. -/
def slashSegments (p : Str) : List Str :=
  let segs := splitOnSlash p
  segs.dropLast.map (fun s => s ++ ['/']) ++ [segs.getLastD []]

/-- One iteration of the loop in Crawler._resolve_url_path: '../' or '..'
pops the last element when `resolved[1:]` is nonempty (i.e. at least two
elements); './' and '.' are dropped; anything else is appended. -/
def resolveStep (resolved : List Str) (seg : Str) : List Str :=
  if seg = ['.', '.', '/'] ∨ seg = ['.', '.'] then
    if 2 ≤ resolved.length then resolved.dropLast else resolved
  else if seg = ['.', '/'] ∨ seg = ['.'] then resolved
  else resolved ++ [seg]

/-- Crawler._resolve_url_path. -/
def resolve_url_path (p : Str) : Str := ((slashSegments p).foldl resolveStep []).flatten

/-- Crawler._clean_link: urlsplit, lexically resolve the path component,
urlunsplit. -/
def clean_link (link : Str) : Str :=
  let r := urlsplitCore link
  urlunsplit ⟨r.scheme, r.netloc, resolve_url_path r.path, r.query, r.fragment⟩

/-- Python str.replace with a single-character pattern: every occurrence
of that character is replaced. -/
def replaceAllChar (t : Char) (repl : Str) : Str → Str
  | [] => []
  | c :: cs => (if c = t then repl else [c]) ++ replaceAllChar t repl cs

/-- Crawler._convert_html_special_chars: the chained replaces, in source
order ('&' first, then '"', '<', '>'). -/
def convert_html_special_chars (s : Str) : Str :=
  replaceAllChar '>' "&gt;".data
    (replaceAllChar '<' "&lt;".data
      (replaceAllChar '"' "&quot;".data
        (replaceAllChar '&' "&amp;".data s)))

/-- Case-insensitive header lookup (email.message.Message mapping access,
used by http.client response headers). -/
def hdrLookup (hdrs : List (Str × Str)) (name : Str) : Option Str :=
  match hdrs.find? (fun h => h.1.map Char.toLower == name.map Char.toLower) with
  | some h => some h.2
  | none => none

/-- Crawler._get_date_from_response.  The external datetime.strptime with
the fixed HTTP date format is a parameter pd; a parse failure (exception)
is None.  A missing Date header is a KeyError, also None: in both cases
Crawler.run's catch-all handler abandons the URL.  Note that despite its
docstring ("Or set current date") the function never falls back to the
current date. -/
def get_date_from_response (pd : Str → Option Nat) (hdrs : List (Str × Str)) : Option Nat :=
  match (match hdrLookup hdrs "last-modified".data with
         | some v => some v
         | none => hdrLookup hdrs "date".data) with
  | none => none
  | some v => pd v

/-- One sitemap record: the dict {'loc': url, 'lastmod': date} appended by
Sitemap.add_url.  Timestamps are abstracted to Nat. -/
structure UrlEntry where
  loc : Str
  lastmod : Nat
deriving DecidableEq

/-- Sitemap.add_url. -/
def add_url (urls : List UrlEntry) (loc : Str) (date : Nat) : List UrlEntry :=
  urls ++ [⟨loc, date⟩]

/-- Outcome of the external urlopen/read for one URL: the request raised
(unreachable / timeout / HTTP error), the response read raised, or the
body was read successfully with a final (post-redirect) URL and headers. -/
inductive FetchOutcome
  | unreachable
  | readError (finalUrl : Str)
  | fetched (finalUrl : Str) (headers : List (Str × Str))

/-- The sitemap records appended by one iteration of Crawler.run's main
loop (lines 200-241) for a dequeued URL u: the URL is percent-prepared;
if its parsed path ends in an invalid format no fetch happens and a
record with the current time is appended; otherwise a failed fetch or a
failed read/date extraction appends nothing (`continue`), and a
successful fetch appends one record for the final URL with the parsed
date.  Locations are HTML-escaped before being stored (line 237). -/
def iterRecords (pd : Str → Option Nat) (now : Nat) (u : Str) (outcome : FetchOutcome) :
    List UrlEntry :=
  let uq := prepare_url u
  let uobj := urlparseD [] uq
  if endsWithAny uobj.path invalid_formats then
    [⟨convert_html_special_chars uq, now⟩]
  else
    match outcome with
    | .unreachable => []
    | .readError _ => []
    | .fetched finalUrl hdrs =>
        match get_date_from_response pd hdrs with
        | none => []
        | some d => [⟨convert_html_special_chars finalUrl, d⟩]

/-- A Python object that is either a str or a {'loc','lastmod'} dict, for
modelling `link_str in self.sitemap.url` faithfully: the list holds dicts
while the candidate is a str. -/
inductive PyObj
  | pystr (s : Str)
  | pydict (loc : Str) (lastmod : Nat)
deriving DecidableEq

/-- Python == between such objects: str == str compares contents,
dict == dict compares entries, and a str never equals a dict. -/
def pyObjEq : PyObj → PyObj → Bool
  | .pystr a, .pystr b => a == b
  | .pydict l1 m1, .pydict l2 m2 => l1 == l2 && m1 == m2
  | _, _ => false

/-- Python `x in xs` for a list: any element equal to x. -/
def pyListContains (x : PyObj) (xs : List PyObj) : Bool := xs.any (fun y => pyObjEq x y)

/-- The value of self.sitemap.url: the list of record dicts. -/
def sitemapPyObjs (urls : List UrlEntry) : List PyObj :=
  urls.map (fun e => PyObj.pydict e.loc e.lastmod)

/-- The check `link_str in self.sitemap.url` at line 266 of Crawler.run. -/
def sitemapContains (link : Str) (urls : List UrlEntry) : Bool :=
  pyListContains (PyObj.pystr link) (sitemapPyObjs urls)

/-- Crawler._exclude_url: True (keep) iff no excluded substring occurs in
the link. -/
def exclude_url (excluded : List Str) (link : Str) : Bool :=
  excluded.all (fun ex => !containsSubCore ex link)

/-- The read-only data shared by all workers: the base host, the excluded
substrings, and the external robots parser's can_fetch answer. -/
structure CrawlEnv where
  baseNetloc : Str
  excluded : List Str
  robots : Str → Bool

/-- The shared mutable crawl state: the pending queue
(crawl_queue.queue), the crawled set, and the sitemap records. -/
structure CrawlState where
  queue : List Str
  crawled : List Str
  sitemapUrls : List UrlEntry

/-- Lines 249-256 of Crawler.run: rewrite a raw href into a candidate
URL.  A link starting with '/' is prefixed with the response's
scheme://netloc; one starting with '#' additionally keeps the response
path; one not starting with 'http'/'https' is joined against the
response URL and cleaned; otherwise it is kept as is.  The final
mailto/tel elif of the source is unreachable (such links never start
with 'http'), but it is kept here faithfully. -/
def transformLink (responseUrl rawLink : Str) : Option Str :=
  let robj := urlparseD [] responseUrl
  if listPref ['/'] rawLink then
    some (robj.scheme ++ "://".data ++ robj.netloc ++ rawLink)
  else if listPref ['#'] rawLink then
    some (robj.scheme ++ "://".data ++ robj.netloc ++ robj.path ++ rawLink)
  else if !(listPref "http".data rawLink || listPref "https".data rawLink) then
    some (clean_link (urljoin responseUrl rawLink))
  else if listPref "mailto".data rawLink || listPref "tel".data rawLink then
    none
  else some rawLink

/-- Lines 259-260 of Crawler.run: drop everything from the first '#'. -/
def stripFragment (l : Str) : Str :=
  match splitAtFirst '#' l with
  | some (before, _) => before
  | none => l

/-- The candidate URL a raw href becomes before the filter chain
(lines 249-260); none when the (unreachable) mailto/tel branch fires. -/
def canonLink (responseUrl rawLink : Str) : Option Str :=
  (transformLink responseUrl rawLink).map stripFragment

/-- The filter chain of lines 263-284 of Crawler.run, as one conjunction
(each source check is `if ...: continue`, so the link is enqueued iff
every check passes): not in the sitemap record list, not already in the
pending queue, same netloc as the base URL, not the bare root with empty
query, not containing the substring "javascript", path not starting with
"data:", allowed by robots, not in the crawled set, and not matching any
excluded substring. -/
def passesFilters (env : CrawlEnv) (st : CrawlState) (link : Str) : Bool :=
  let lobj := urlparseD [] link
  !(sitemapContains link st.sitemapUrls) &&
  !(st.queue.any (fun q => q == link)) &&
  (lobj.netloc == env.baseNetloc) &&
  !((lobj.path == ([] : Str) || lobj.path == ['/']) && lobj.query == ([] : Str)) &&
  !(containsSubCore "javascript".data link) &&
  !(listPref "data:".data lobj.path) &&
  env.robots link &&
  !(st.crawled.any (fun q => q == link)) &&
  exclude_url env.excluded link

/-- Processing of one raw href by the loop body of lines 246-286:
transform it, and enqueue it iff the filter chain passes. -/
def processOneLink (env : CrawlEnv) (st : CrawlState) (responseUrl rawLink : Str) : CrawlState :=
  match canonLink responseUrl rawLink with
  | none => st
  | some link =>
      if passesFilters env st link then { st with queue := st.queue ++ [link] } else st

/-- The whole link loop of lines 246-286 over the hrefs extracted from
one response body. -/
def processLinks (env : CrawlEnv) (st : CrawlState) (responseUrl : Str) (links : List Str) :
    CrawlState :=
  links.foldl (fun s l => processOneLink env s responseUrl l) st

/-- Two workers that both discovered the same link execute the filter
chain (the reads of lines 263-284) against the same state before either
of them reaches the enqueue of line 286: nothing in the code serialises
the check with the insert.  This is the schedule check1, check2, put1,
put2. -/
def interleavedDoubleEnqueue (env : CrawlEnv) (st : CrawlState) (u : Str) : CrawlState :=
  let ok1 := passesFilters env st u
  let ok2 := passesFilters env st u
  let st1 := if ok1 then { st with queue := st.queue ++ [u] } else st
  if ok2 then { st1 with queue := st1.queue ++ [u] } else st1

/-- Sitemap._MAX_URL_PER_FILE. -/
def MAX_URL_PER_FILE : Nat := 50000

/-- The name f'sitemap{i+1}.xml' of the i-th part file. -/
def partFileName (i : Nat) : Str := "sitemap".data ++ (Nat.repr (i + 1)).data ++ ".xml".data

/-- The files written by Sitemap.create_sitemap: the sitemap files with
their record slices, and the optional index file with the part names it
lists. -/
structure SitemapPlan where
  parts : List (Str × List UrlEntry)
  indexFile : Option (Str × List Str)
deriving DecidableEq

/-- Sitemap.create_sitemap: more than _MAX_URL_PER_FILE records are split
into ceil-many consecutive slices written to sitemap1.xml.. plus a
sitemap_index.xml listing them; otherwise one sitemap.xml. -/
def create_sitemap (urls : List UrlEntry) : SitemapPlan :=
  if MAX_URL_PER_FILE < urls.length then
    let filesNum := urls.length / MAX_URL_PER_FILE +
      (if urls.length % MAX_URL_PER_FILE ≠ 0 then 1 else 0)
    { parts := (List.range filesNum).map
        (fun i => (partFileName i, (urls.drop (i * MAX_URL_PER_FILE)).take MAX_URL_PER_FILE)),
      indexFile := some ("sitemap_index.xml".data, (List.range filesNum).map partFileName) }
  else { parts := [("sitemap.xml".data, urls)], indexFile := none }

/-- Modelled from the spec: the claim's reading of path resolution ("each
'.' segment is dropped and each '..' segment pops the previous real
segment but never pops past the root").  The root of an absolute path is
its leading empty segment, which is never popped; on any other segment
'..' pops. -/
def specResolvePath (p : Str) : Str :=
  joinWithSlash ((splitOnSlash p).foldl
    (fun stack seg =>
      if seg = ['.'] then stack
      else if seg = ['.', '.'] then
        (if stack = [] ∨ stack = [([] : Str)] then stack else stack.dropLast)
      else stack ++ [seg]) [])

/-- Modelled from the spec: the inverse HTML-entity unescaping of the
escaping-round-trip property (the four entities produced by
_convert_html_special_chars are decoded; everything else is copied). -/
def unescapeChars : Str → Str
  | [] => []
  | c :: rest =>
      if c = '&' then
        if listPref "amp;".data rest then '&' :: unescapeChars (rest.drop 4)
        else if listPref "quot;".data rest then '"' :: unescapeChars (rest.drop 5)
        else if listPref "lt;".data rest then '<' :: unescapeChars (rest.drop 3)
        else if listPref "gt;".data rest then '>' :: unescapeChars (rest.drop 3)
        else c :: unescapeChars rest
      else c :: unescapeChars rest
termination_by l => l.length
decreasing_by all_goals (simp [List.length_drop]; try omega)

/-- No raw '"', '<' or '>' occurs in the string. -/
def noRawSpecials (s : Str) : Bool := s.all (fun c => !(c == '"' || c == '<' || c == '>'))

/-- Every '&' in the string starts one of the four entities produced by
_convert_html_special_chars. -/
def ampEntitiesOnly : Str → Bool
  | [] => true
  | c :: rest =>
      if c = '&' then
        if listPref "amp;".data rest then ampEntitiesOnly (rest.drop 4)
        else if listPref "quot;".data rest then ampEntitiesOnly (rest.drop 5)
        else if listPref "lt;".data rest then ampEntitiesOnly (rest.drop 3)
        else if listPref "gt;".data rest then ampEntitiesOnly (rest.drop 3)
        else false
      else ampEntitiesOnly rest
termination_by l => l.length
decreasing_by all_goals (simp [List.length_drop]; try omega)

/-- What one raw character becomes under the chain of replaces of
_convert_html_special_chars. -/
def escChar (c : Char) : Str :=
  if c = '&' then "&amp;".data
  else if c = '"' then "&quot;".data
  else if c = '<' then "&lt;".data
  else if c = '>' then "&gt;".data
  else [c]

/-- The normalization pipeline the idempotence claim is about:
_clean_link (lexical path resolution) followed by _prepare_url
(percent-encoding of the path component). -/
def normalizeUrl (u : Str) : Str := prepare_url (clean_link u)

/-- The worker pool environment of the crawl scenarios: base host
example.com, no exclusions, robots.txt allows everything. -/
def scenarioEnv : CrawlEnv := ⟨"example.com".data, [], fun _ => true⟩

/-- The crawl state right after the seed page was dequeued, marked
crawled and recorded: empty queue, crawled = {seed}, one sitemap
record. -/
def scenarioState : CrawlState :=
  ⟨[], ["https://example.com/".data], [⟨"https://example.com/".data, 0⟩]⟩

/-- A segment is none of the four dot forms of _resolve_url_path. -/
def dotFree (e : Str) : Prop :=
  e ≠ ['.', '.', '/'] ∧ e ≠ ['.', '.'] ∧ e ≠ ['.', '/'] ∧ e ≠ ['.']

/-- A stack element of the form segment-plus-slash whose segment is
slash-free and not a dot segment. -/
def slashedGood (e : Str) : Prop :=
  ∃ s, e = s ++ ['/'] ∧ '/' ∉ s ∧ s ≠ ['.', '.'] ∧ s ≠ ['.']

/-- A slash-free final stack element that is not a dot segment. -/
def bareGood (e : Str) : Prop := '/' ∉ e ∧ e ≠ ['.', '.'] ∧ e ≠ ['.']

/-- A path segment that is neither '..' nor '.'. -/
def goodSeg (t : Str) : Prop := t ≠ ['.', '.'] ∧ t ≠ ['.']

/-- C1: the claim says the membership test and the insertion behind
enqueue-if-new are one indivisible atomic operation, so a URL is never
enqueued twice even when two workers discover it simultaneously.  In the
code the filter chain (lines 263-284) and the crawl_queue.put of
line 286 are separate unsynchronised steps, and the seen-set insertion
happens only at dequeue time (line 198); under the schedule in which
both workers run their checks before either puts, the same URL is
enqueued twice: the final queue holds two copies of
https://example.com/a. -/
theorem claim_C1_dedup_not_atomic :
    countOcc "https://example.com/a".data
      (interleavedDoubleEnqueue scenarioEnv scenarioState "https://example.com/a".data).queue
      = 2 := by decide

/-- C3 counterexample: a URL whose fetch raises (unreachable) is handled
by the `continue` of line 213 before any Sitemap.add_url call, so it
produces zero PageRecords, not the exactly-one record with the current
time that the claim states.  (The date parser argument is irrelevant
here: no response exists to read a date from.) -/
theorem claim_C3_counterexample :
    iterRecords (fun _ => none) 0 "https://example.com/page".data FetchOutcome.unreachable
      = [] := by decide

/-- The branch structure of iterRecords, written without let bindings. -/
theorem iterRecords_eq (pd : Str → Option Nat) (now : Nat) (u : Str) (outcome : FetchOutcome) :
    iterRecords pd now u outcome =
      if endsWithAny (urlparseD [] (prepare_url u)).path invalid_formats then
        [⟨convert_html_special_chars (prepare_url u), now⟩]
      else
        match outcome with
        | FetchOutcome.unreachable => []
        | FetchOutcome.readError _ => []
        | FetchOutcome.fetched finalUrl hdrs =>
            match get_date_from_response pd hdrs with
            | none => []
            | some d => [⟨convert_html_special_chars finalUrl, d⟩] := rfl

/-- C3 amended: each dequeued URL yields at most one record; it yields no
record exactly when it was actually fetched (its path does not end in a
skipped extension) and the fetch was unreachable, the body read raised,
or the date headers yielded no parseable date; and a skip-extension URL
is recorded with the current time without any fetch. -/
theorem claim_C3_amended (pd : Str → Option Nat) (now : Nat) (u : Str)
    (outcome : FetchOutcome) :
    (iterRecords pd now u outcome).length ≤ 1 ∧
    ((iterRecords pd now u outcome) = [] ↔
      (endsWithAny (urlparseD [] (prepare_url u)).path invalid_formats = false ∧
       (match outcome with
        | FetchOutcome.unreachable => True
        | FetchOutcome.readError _ => True
        | FetchOutcome.fetched _ hdrs => get_date_from_response pd hdrs = none))) ∧
    (endsWithAny (urlparseD [] (prepare_url u)).path invalid_formats = true →
      iterRecords pd now u outcome = [⟨convert_html_special_chars (prepare_url u), now⟩]) := by
  rw [iterRecords_eq]
  by_cases h : endsWithAny (urlparseD [] (prepare_url u)).path invalid_formats = true
  · cases outcome <;> simp [h]
  · have h' : endsWithAny (urlparseD [] (prepare_url u)).path invalid_formats = false := by
      revert h
      cases endsWithAny (urlparseD [] (prepare_url u)).path invalid_formats <;> simp
    cases outcome with
    | unreachable => simp [h']
    | readError f => simp [h']
    | fetched f hdrs =>
        cases hd : get_date_from_response pd hdrs <;> simp [h', hd]

/-- C3 witness: the skip-extension case at a concrete input, a .pdf URL:
its record is exactly the escaped prepared URL with the current time. -/
theorem claim_C3_amended_witness :
    endsWithAny (urlparseD [] (prepare_url "https://example.com/file.pdf".data)).path
      invalid_formats = true ∧
    iterRecords (fun _ => none) 7 "https://example.com/file.pdf".data FetchOutcome.unreachable
      = [⟨convert_html_special_chars (prepare_url "https://example.com/file.pdf".data), 7⟩] :=
  ⟨by decide,
   (claim_C3_amended (fun _ => none) 7 "https://example.com/file.pdf".data
      FetchOutcome.unreachable).2.2 (by decide)⟩

/-- C4: the claim (and the docstring of _get_date_from_response) says a
missing or non-conforming date header falls back to the current time and
the page is kept.  In the code a successful fetch whose response has
neither a Last-Modified nor a Date header raises KeyError inside
_get_date_from_response; the catch-all at line 226 then abandons the
page: no record is appended, whatever the date parser would do. -/
theorem claim_C4_missing_date_header_drops_page (pd : Str → Option Nat) :
    iterRecords pd 0 "https://example.com/page".data
      (FetchOutcome.fetched "https://example.com/page".data
        [("content-type".data, "text/html".data)]) = [] := rfl

/-- C5: the claim says the Accumulator's membership check answers true
exactly when the URL equals a recorded location.  The check
`link_str in self.sitemap.url` (line 266) compares the candidate string
with the {'loc','lastmod'} dict objects stored by Sitemap.add_url, and a
Python str never equals a dict, so the check answers false for every
link and every record list - even when the link is byte-identical to a
recorded location, as the concrete second conjunct shows. -/
theorem claim_C5_sitemap_membership_never_true :
    (∀ (link : Str) (urls : List UrlEntry), sitemapContains link urls = false) ∧
    sitemapContains "https://example.com/a".data [⟨"https://example.com/a".data, 0⟩] = false := by
  constructor
  · intro link urls
    induction urls with
    | nil => rfl
    | cons e t ih =>
        simp only [sitemapContains, sitemapPyObjs, pyListContains, List.map_cons,
          List.any_cons] at ih ⊢
        simp [pyObjEq, ih]
  · decide

/-- C6: on the scenario page the frontier ends as exactly
{https://example.com/a, https://example.com/b} - the other-domain link
and the ordinary mailto link are dropped (first conjunct).  But the
claim's "mailto:/tel: links are never enqueued" is broken: the dedicated
mailto/tel branch (lines 255-256) is unreachable, because any link
starting with "mailto"/"tel" already takes the preceding
not-startswith-http branch; a crafted mailto://example.com/x link parses
with netloc example.com, passes every filter and is enqueued (second
conjunct). -/
theorem claim_C6_scenario_and_dead_mailto_branch :
    (processLinks scenarioEnv scenarioState "https://example.com/".data
        ["/a".data, "b".data, "https://other.com/x".data, "mailto:me@x.com".data]).queue
      = ["https://example.com/a".data, "https://example.com/b".data] ∧
    (processLinks scenarioEnv scenarioState "https://example.com/".data
        ["mailto://example.com/x".data]).queue
      = ["mailto://example.com/x".data] := by
  constructor <;> decide

/-- C7 counterexample: the claim says that for every path each '..'
segment pops the previous real segment (never popping past the root),
which on the relative path a/../x would pop the segment a and yield x
(as specResolvePath, the claim's reading, does).  The code's guard
`if resolved[1:]` protects index 0 of the resolved list even when that
element is not a root, so _resolve_url_path keeps the segment a and
returns a/x. -/
theorem claim_C7_counterexample :
    resolve_url_path "a/../x".data = "a/x".data ∧
    specResolvePath "a/../x".data = "x".data := by decide

/-- C8 counterexample: normalization (clean_link then prepare_url, i.e.
lexical path resolution then percent-encoding of the path) is not
idempotent.  The URL https://h/%C3%A9 is itself the output of
normalizing https://h/é, and normalizing it again yields
https://h/%25C3%25A9 because quote percent-encodes the '%' character
itself. -/
theorem claim_C8_counterexample :
    normalizeUrl (normalizeUrl "https://h/é".data) ≠ normalizeUrl "https://h/é".data := by
  decide

/-- C10: any candidate link whose full URL string (after the rewriting of
lines 249-260) contains the substring "javascript" anywhere is dropped by
the check of lines 274-275 and never enqueued: the queue is unchanged. -/
theorem claim_C10_javascript_substring_filter (env : CrawlEnv) (st : CrawlState)
    (responseUrl rawLink link : Str)
    (hcanon : canonLink responseUrl rawLink = some link)
    (hjs : containsSubCore "javascript".data link = true) :
    (processOneLink env st responseUrl rawLink).queue = st.queue := by
  have hpf : passesFilters env st link = false := by
    simp [passesFilters, hjs]
  simp [processOneLink, hcanon, hpf]

/-- C10 witness: the same-host HTML page /guides/javascript is excluded
from the crawl. -/
theorem claim_C10_witness :
    (processOneLink scenarioEnv scenarioState "https://example.com/".data
      "/guides/javascript".data).queue = scenarioState.queue :=
  claim_C10_javascript_substring_filter scenarioEnv scenarioState
    "https://example.com/".data "/guides/javascript".data
    "https://example.com/guides/javascript".data (by decide) (by decide)

/-- C2: when the record count exceeds 50000, create_sitemap writes
exactly ceil(n/50000) part files named sitemap1.xml.. holding the
consecutive 50000-sized slices (so each holds at most 50000 records),
plus one sitemap_index.xml listing exactly the part file names; with at
most 50000 records (50000 included) it writes the single sitemap.xml and
no index file. -/
theorem claim_C2_sitemap_split (urls : List UrlEntry) :
    (MAX_URL_PER_FILE < urls.length →
      (create_sitemap urls).parts =
        (List.range ((urls.length + (MAX_URL_PER_FILE - 1)) / MAX_URL_PER_FILE)).map
          (fun i => (partFileName i, (urls.drop (i * MAX_URL_PER_FILE)).take MAX_URL_PER_FILE)) ∧
      (create_sitemap urls).parts.length =
        (urls.length + (MAX_URL_PER_FILE - 1)) / MAX_URL_PER_FILE ∧
      (∀ pr ∈ (create_sitemap urls).parts, pr.2.length ≤ MAX_URL_PER_FILE) ∧
      (create_sitemap urls).indexFile =
        some ("sitemap_index.xml".data, (create_sitemap urls).parts.map Prod.fst)) ∧
    (urls.length ≤ MAX_URL_PER_FILE →
      (create_sitemap urls).parts = [("sitemap.xml".data, urls)] ∧
      (create_sitemap urls).indexFile = none) := by
  constructor
  · intro h
    have hnum : urls.length / MAX_URL_PER_FILE +
        (if urls.length % MAX_URL_PER_FILE ≠ 0 then 1 else 0) =
        (urls.length + (MAX_URL_PER_FILE - 1)) / MAX_URL_PER_FILE := by
      show urls.length / 50000 + (if urls.length % 50000 ≠ 0 then 1 else 0) =
        (urls.length + 49999) / 50000
      by_cases hz : urls.length % 50000 = 0
      · rw [if_neg (by simp [hz])]
        omega
      · rw [if_pos hz]
        omega
    have hparts : (create_sitemap urls).parts =
        (List.range ((urls.length + (MAX_URL_PER_FILE - 1)) / MAX_URL_PER_FILE)).map
          (fun i => (partFileName i, (urls.drop (i * MAX_URL_PER_FILE)).take MAX_URL_PER_FILE)) := by
      simp only [create_sitemap, if_pos h, hnum]
    have hidx : (create_sitemap urls).indexFile =
        some ("sitemap_index.xml".data,
          (List.range ((urls.length + (MAX_URL_PER_FILE - 1)) / MAX_URL_PER_FILE)).map
            partFileName) := by
      simp only [create_sitemap, if_pos h, hnum]
    refine ⟨hparts, ?_, ?_, ?_⟩
    · rw [hparts]
      simp
    · intro pr hpr
      rw [hparts] at hpr
      simp only [List.mem_map, List.mem_range] at hpr
      obtain ⟨i, _, hi⟩ := hpr
      rw [← hi]
      simp [List.length_take]
    · rw [hidx, hparts, List.map_map]
      rfl
  · intro h
    have h' : ¬ MAX_URL_PER_FILE < urls.length := by omega
    constructor <;> simp [create_sitemap, if_neg h']

/-- C2 witness: with exactly 50001 records there are exactly two part
files, of 50000 and 1 records, named sitemap1.xml and sitemap2.xml in
the index; with exactly 50000 records there is a single sitemap.xml and
no index file. -/
theorem claim_C2_sitemap_split_witness :
    (create_sitemap (List.replicate 50001 (⟨[], 0⟩ : UrlEntry))).parts.length = 2 ∧
    (create_sitemap (List.replicate 50001 (⟨[], 0⟩ : UrlEntry))).parts.map
      (fun pr => pr.2.length) = [50000, 1] ∧
    (create_sitemap (List.replicate 50001 (⟨[], 0⟩ : UrlEntry))).indexFile =
      some ("sitemap_index.xml".data, ["sitemap1.xml".data, "sitemap2.xml".data]) ∧
    (create_sitemap (List.replicate 50000 (⟨[], 0⟩ : UrlEntry))).parts =
      [("sitemap.xml".data, List.replicate 50000 (⟨[], 0⟩ : UrlEntry))] ∧
    (create_sitemap (List.replicate 50000 (⟨[], 0⟩ : UrlEntry))).indexFile = none := by
  have hlen : MAX_URL_PER_FILE < (List.replicate 50001 (⟨[], 0⟩ : UrlEntry)).length := by
    rw [List.length_replicate]
    decide
  have h1 := (claim_C2_sitemap_split (List.replicate 50001 ⟨[], 0⟩)).1 hlen
  have h2 := (claim_C2_sitemap_split (List.replicate 50000 ⟨[], 0⟩)).2
    (by rw [List.length_replicate]; decide)
  have hK : ((List.replicate 50001 (⟨[], 0⟩ : UrlEntry)).length +
      (MAX_URL_PER_FILE - 1)) / MAX_URL_PER_FILE = 2 := by
    rw [List.length_replicate]
    decide
  have hr : List.range 2 = [0, 1] := rfl
  refine ⟨?_, ?_, ?_, h2.1, h2.2⟩
  · rw [h1.2.1, hK]
  · rw [h1.1, hK, hr]
    simp only [List.map_cons, List.map_nil, List.length_take, List.length_drop,
      List.length_replicate]
    decide
  · rw [h1.2.2.2, h1.1, hK, hr]
    simp only [List.map_cons, List.map_nil]
    decide

/-- No element of splitOnSlash contains the separator. -/
theorem splitOnSlash_no_slash (p : Str) : ∀ s ∈ splitOnSlash p, '/' ∉ s := by
  induction p with
  | nil => simp [splitOnSlash, splitSlashAux]
  | cons c cs ih =>
      intro s hs
      by_cases h : c = '/'
      · subst h
        simp only [splitOnSlash, splitSlashAux, if_pos rfl, List.mem_cons] at hs ⊢
        rcases hs with h | h
        · subst h; simp
        · exact ih s (by simpa [splitOnSlash] using h)
      · simp only [splitOnSlash, splitSlashAux, if_neg h, List.mem_cons] at hs
        rcases hs with h1 | h1
        · subst h1
          intro hc
          rcases List.mem_cons.1 hc with h2 | h2
          · exact h h2.symm
          · exact ih _ (by simp [splitOnSlash]) h2
        · exact ih s (by simp [splitOnSlash, h1])

/-- Joining the split recovers the original string. -/
theorem joinWithSlash_splitOnSlash (p : Str) : joinWithSlash (splitOnSlash p) = p := by
  induction p with
  | nil => rfl
  | cons c cs ih =>
      have ih' : joinWithSlash ((splitSlashAux cs).1 :: (splitSlashAux cs).2) = cs := ih
      by_cases h : c = '/'
      · subst h
        have hs : splitOnSlash ('/' :: cs) =
            [] :: (splitSlashAux cs).1 :: (splitSlashAux cs).2 := by
          simp [splitOnSlash, splitSlashAux]
        rw [hs]
        show ([] : Str) ++ '/' :: joinWithSlash ((splitSlashAux cs).1 :: (splitSlashAux cs).2)
          = '/' :: cs
        rw [ih']
        rfl
      · have hs : splitOnSlash (c :: cs) =
            (c :: (splitSlashAux cs).1) :: (splitSlashAux cs).2 := by
          simp [splitOnSlash, splitSlashAux, if_neg h]
        rw [hs]
        rcases h2 : (splitSlashAux cs).2 with _ | ⟨y, ys⟩
        · rw [h2] at ih'
          show c :: (splitSlashAux cs).1 = c :: cs
          rw [show (splitSlashAux cs).1 = cs from ih']
        · rw [h2] at ih'
          show (c :: (splitSlashAux cs).1) ++ '/' :: joinWithSlash (y :: ys) = c :: cs
          have ih2 : (splitSlashAux cs).1 ++ '/' :: joinWithSlash (y :: ys) = cs := ih'
          rw [List.cons_append, ih2]

/-- Concatenating the slash-suffixed segments equals joining with '/'. -/
theorem flatten_slashed (x : Str) (xs : List Str) :
    ((x :: xs).dropLast.map (fun s => s ++ ['/']) ++ [(x :: xs).getLastD []]).flatten
      = joinWithSlash (x :: xs) := by
  induction xs generalizing x with
  | nil => simp [joinWithSlash]
  | cons y ys ih =>
      have hlast : (x :: y :: ys).getLastD [] = (y :: ys).getLastD [] := by
        simp [List.getLastD_eq_getLast?, List.getLast?_cons_cons]
      rw [List.dropLast_cons₂, hlast, List.map_cons, List.cons_append, List.flatten_cons]
      rw [ih y]
      show (x ++ ['/']) ++ joinWithSlash (y :: ys) = x ++ '/' :: joinWithSlash (y :: ys)
      simp

/-- Concatenating slashSegments recovers the path. -/
theorem flatten_slashSegments (p : Str) : (slashSegments p).flatten = p := by
  rw [slashSegments]
  show ((((splitSlashAux p).1 :: (splitSlashAux p).2).dropLast.map (fun s => s ++ ['/']))
    ++ [((splitSlashAux p).1 :: (splitSlashAux p).2).getLastD []]).flatten = p
  rw [flatten_slashed]
  exact joinWithSlash_splitOnSlash p

theorem resolveStep_append (acc : List Str) (e : Str) (h : dotFree e) :
    resolveStep acc e = acc ++ [e] := by
  rw [resolveStep, if_neg, if_neg]
  · rintro (h1 | h1)
    · exact h.2.2.1 h1
    · exact h.2.2.2 h1
  · rintro (h1 | h1)
    · exact h.1 h1
    · exact h.2.1 h1

/-- Folding resolveStep over dot-free segments appends them all. -/
theorem foldl_resolveStep_dotFree (l : List Str) : ∀ acc, (∀ e ∈ l, dotFree e) →
    l.foldl resolveStep acc = acc ++ l := by
  induction l with
  | nil => simp
  | cons e t ih =>
      intro acc h
      rw [List.foldl_cons, resolveStep_append acc e (h e (by simp)),
        ih _ (fun x hx => h x (by simp [hx]))]
      simp

/-- Everything on the resolved stack came from the input segments and is
dot-free (only the append branch of resolveStep adds elements). -/
theorem mem_foldl_resolveStep (l : List Str) : ∀ acc e, e ∈ l.foldl resolveStep acc →
    e ∈ acc ∨ (e ∈ l ∧ dotFree e) := by
  induction l with
  | nil => simp
  | cons s t ih =>
      intro acc e he
      rw [List.foldl_cons] at he
      rcases ih _ e he with h | h
      · by_cases h1 : s = ['.', '.', '/'] ∨ s = ['.', '.']
        · rw [resolveStep, if_pos h1] at h
          split at h
          · exact Or.inl (List.mem_of_mem_dropLast h)
          · exact Or.inl h
        · by_cases h2 : s = ['.', '/'] ∨ s = ['.']
          · rw [resolveStep, if_neg h1, if_pos h2] at h
            exact Or.inl h
          · rw [resolveStep, if_neg h1, if_neg h2] at h
            rcases List.mem_append.1 h with h3 | h3
            · exact Or.inl h3
            · push_neg at h1 h2
              simp only [List.mem_singleton] at h3
              subst h3
              exact Or.inr ⟨by simp, h1.1, h1.2, h2.1, h2.2⟩
      · exact Or.inr ⟨by simp [h.1], h.2⟩

/-- splitSlashAux across an explicit separator after a slash-free block. -/
theorem splitSlashAux_append_slash (s rest : Str) (h : '/' ∉ s) :
    splitSlashAux (s ++ '/' :: rest) =
      (s, (splitSlashAux rest).1 :: (splitSlashAux rest).2) := by
  induction s with
  | nil => simp [splitSlashAux]
  | cons c cs ih =>
      have hc : c ≠ '/' := fun hh => h (by simp [hh])
      have ih' := ih (fun hh => h (by simp [hh]))
      simp only [List.cons_append, splitSlashAux, List.append_eq, ih', if_neg hc]

/-- splitSlashAux of a slash-free string is the whole string. -/
theorem splitSlashAux_no_slash (s : Str) (h : '/' ∉ s) : splitSlashAux s = (s, []) := by
  induction s with
  | nil => rfl
  | cons c cs ih =>
      have hc : c ≠ '/' := fun hh => h (by simp [hh])
      have ih' := ih (fun hh => h (by simp [hh]))
      simp [splitSlashAux, ih', if_neg hc]

/-- Splitting the concatenation of slash-suffixed good blocks yields only
good segments. -/
theorem splitOnSlash_flatten_slashed (S : List Str) (hS : ∀ e ∈ S, slashedGood e) :
    ∀ t ∈ splitOnSlash S.flatten, goodSeg t := by
  induction S with
  | nil =>
      intro t ht
      simp only [List.flatten_nil, splitOnSlash, splitSlashAux, List.mem_singleton] at ht
      subst ht
      exact ⟨by simp, by simp⟩
  | cons e S ih =>
      intro t ht
      obtain ⟨s, rfl, hns, hs1, hs2⟩ := hS e (by simp)
      rw [List.flatten_cons, List.append_assoc, List.singleton_append] at ht
      rw [splitOnSlash, splitSlashAux_append_slash s _ hns] at ht
      rcases List.mem_cons.1 ht with h | h
      · subst h; exact ⟨hs1, hs2⟩
      · exact ih (fun x hx => hS x (by simp [hx])) t (by rw [splitOnSlash]; exact h)

/-- The same with a final slash-free good block. -/
theorem splitOnSlash_flatten_slashed_bare (S : List Str) (b : Str) (hb : bareGood b) :
    (∀ e ∈ S, slashedGood e) → ∀ t ∈ splitOnSlash (S ++ [b]).flatten, goodSeg t := by
  induction S with
  | nil =>
      intro _ t ht
      simp only [List.nil_append, List.flatten_cons, List.flatten_nil, List.append_nil] at ht
      rw [splitOnSlash, splitSlashAux_no_slash b hb.1, List.mem_singleton] at ht
      subst ht
      exact ⟨hb.2.1, hb.2.2⟩
  | cons e S ih =>
      intro hS t ht
      obtain ⟨s, rfl, hns, hs1, hs2⟩ := hS e (by simp)
      rw [List.cons_append, List.flatten_cons, List.append_assoc, List.singleton_append] at ht
      rw [splitOnSlash, splitSlashAux_append_slash s _ hns] at ht
      rcases List.mem_cons.1 ht with h | h
      · subst h; exact ⟨hs1, hs2⟩
      · exact ih (fun x hx => hS x (by simp [hx])) t (by rw [splitOnSlash]; exact h)

/-- The last element of a nonempty list with any fallback is a member. -/
theorem getLastD_mem_cons (x : Str) (xs : List Str) (d : Str) :
    (x :: xs).getLastD d ∈ x :: xs := by
  induction xs generalizing x with
  | nil => simp [List.getLastD_eq_getLast?]
  | cons y ys ih =>
      have h : (x :: y :: ys).getLastD d = (y :: ys).getLastD d := by
        simp [List.getLastD_eq_getLast?, List.getLast?_cons_cons]
      rw [h]
      exact List.mem_cons_of_mem x (ih y)

/-- Every segment of a resolved path is neither '..' nor '.': the fold
only ever appends non-dot segments, and re-splitting the concatenated
stack recovers exactly those segments (plus empty ones). -/
theorem resolve_url_path_segments_good (p : Str) :
    ∀ t ∈ splitOnSlash (resolve_url_path p), goodSeg t := by
  intro t ht
  simp only [resolve_url_path, slashSegments] at ht
  rw [List.foldl_append, List.foldl_cons, List.foldl_nil] at ht
  have hgood : ∀ e ∈ ((splitOnSlash p).dropLast.map (fun s => s ++ ['/'])).foldl
      resolveStep [], slashedGood e := by
    intro e he
    rcases mem_foldl_resolveStep _ [] e he with h | ⟨hmem, hdf⟩
    · simp at h
    · obtain ⟨s, hs, rfl⟩ := List.mem_map.1 hmem
      have hsm : s ∈ splitOnSlash p := List.mem_of_mem_dropLast hs
      have hns : '/' ∉ s := splitOnSlash_no_slash p s hsm
      refine ⟨s, rfl, hns, ?_, ?_⟩
      · intro hc
        exact hdf.1 (by rw [hc]; rfl)
      · intro hc
        exact hdf.2.2.1 (by rw [hc]; rfl)
  have hbm : (splitOnSlash p).getLastD [] ∈ splitOnSlash p := by
    rw [splitOnSlash]
    exact getLastD_mem_cons _ _ _
  have hbns : '/' ∉ (splitOnSlash p).getLastD [] := splitOnSlash_no_slash p _ hbm
  by_cases h1 : (splitOnSlash p).getLastD [] = ['.', '.', '/'] ∨
      (splitOnSlash p).getLastD [] = ['.', '.']
  · rw [resolveStep, if_pos h1] at ht
    split at ht
    · exact splitOnSlash_flatten_slashed _
        (fun e he => hgood e (List.mem_of_mem_dropLast he)) t ht
    · exact splitOnSlash_flatten_slashed _ hgood t ht
  · by_cases h2 : (splitOnSlash p).getLastD [] = ['.', '/'] ∨
        (splitOnSlash p).getLastD [] = ['.']
    · rw [resolveStep, if_neg h1, if_pos h2] at ht
      exact splitOnSlash_flatten_slashed _ hgood t ht
    · rw [resolveStep, if_neg h1, if_neg h2] at ht
      push_neg at h1 h2
      exact splitOnSlash_flatten_slashed_bare _ _ ⟨hbns, h1.2, h2.2⟩ hgood t ht

/-- On a path none of whose segments is '..' or '.', _resolve_url_path is
the identity. -/
theorem resolve_url_path_of_good (q : Str) (h : ∀ t ∈ splitOnSlash q, goodSeg t) :
    resolve_url_path q = q := by
  have hall : ∀ e ∈ slashSegments q, dotFree e := by
    intro e he
    simp only [slashSegments] at he
    rcases List.mem_append.1 he with hA | hB
    · obtain ⟨s, hs, rfl⟩ := List.mem_map.1 hA
      have hsm : s ∈ splitOnSlash q := List.mem_of_mem_dropLast hs
      have hg := h s hsm
      have hsl : '/' ∈ s ++ ['/'] := by simp
      refine ⟨?_, ?_, ?_, ?_⟩
      · intro hc
        have hc' : s ++ ['/'] = ['.', '.'] ++ ['/'] := hc
        exact hg.1 (List.append_cancel_right hc')
      · intro hc
        rw [hc] at hsl
        simp at hsl
      · intro hc
        have hc' : s ++ ['/'] = ['.'] ++ ['/'] := hc
        exact hg.2 (List.append_cancel_right hc')
      · intro hc
        rw [hc] at hsl
        simp at hsl
    · simp only [List.mem_singleton] at hB
      subst hB
      have hbm : (splitOnSlash q).getLastD [] ∈ splitOnSlash q := by
        rw [splitOnSlash]
        exact getLastD_mem_cons _ _ _
      have hns : '/' ∉ (splitOnSlash q).getLastD [] := splitOnSlash_no_slash q _ hbm
      have hg := h _ hbm
      refine ⟨?_, hg.1, ?_, hg.2⟩
      · intro hc
        rw [hc] at hns
        simp at hns
      · intro hc
        rw [hc] at hns
        simp at hns
  rw [resolve_url_path, foldl_resolveStep_dotFree _ [] hall, List.nil_append]
  exact flatten_slashSegments q

/-- C8 amended: the lexical path-resolution stage of normalization is
idempotent - resolving an already-resolved path changes nothing.  (The
full normalization including quote is not idempotent, see the
counterexample: quote re-encodes the percent character.) -/
theorem claim_C8_resolve_idempotent (p : Str) :
    resolve_url_path (resolve_url_path p) = resolve_url_path p :=
  resolve_url_path_of_good _ (resolve_url_path_segments_good p)

/-- Once the stack head is the root element "/", no resolveStep removes
it: pops require at least two elements and drop from the end. -/
theorem foldl_resolveStep_head_slash (l : List Str) : ∀ acc,
    ∃ acc2, l.foldl resolveStep (['/'] :: acc) = ['/'] :: acc2 := by
  induction l with
  | nil => exact fun acc => ⟨acc, rfl⟩
  | cons s t ih =>
      intro acc
      rw [List.foldl_cons]
      have hstep : ∃ acc1, resolveStep (['/'] :: acc) s = ['/'] :: acc1 := by
        rw [resolveStep]
        split
        · split
          · cases acc with
            | nil => simp_all
            | cons a as => exact ⟨(a :: as).dropLast, List.dropLast_cons₂⟩
          · exact ⟨acc, rfl⟩
        · split
          · exact ⟨acc, rfl⟩
          · exact ⟨acc ++ [s], rfl⟩
      obtain ⟨acc1, h1⟩ := hstep
      rw [h1]
      exact ih acc1

/-- C7 amended: path resolution is purely lexical; on absolute paths it
never pops past the root (the result keeps the leading '/'), and the
scenario path /p/q/../../x resolves to /x; on relative paths however the
'..' never pops the first segment: a/../x resolves to a/x. -/
theorem claim_C7_lexical_resolution :
    (∀ p : Str, listPref ['/'] p = true → listPref ['/'] (resolve_url_path p) = true) ∧
    resolve_url_path "/p/q/../../x".data = "/x".data ∧
    resolve_url_path "a/../x".data = "a/x".data := by
  refine ⟨?_, by decide, by decide⟩
  intro p hp
  obtain ⟨cs, rfl⟩ : ∃ cs, p = '/' :: cs := by
    cases p with
    | nil => simp [listPref] at hp
    | cons c cs =>
        simp only [listPref, Bool.and_eq_true, beq_iff_eq] at hp
        exact ⟨cs, by rw [hp.1]⟩
  have hseg : slashSegments ('/' :: cs) =
      ['/'] :: (((splitSlashAux cs).1 :: (splitSlashAux cs).2).dropLast.map
          (fun s => s ++ ['/'])
        ++ [(([] : Str) :: (splitSlashAux cs).1 :: (splitSlashAux cs).2).getLastD []]) := by
    rfl
  rw [resolve_url_path, hseg, List.foldl_cons]
  have h0 : resolveStep [] ['/'] = [['/']] := rfl
  rw [h0]
  obtain ⟨acc2, h2⟩ := foldl_resolveStep_head_slash _ []
  rw [h2]
  simp [listPref]

/-- Single-character replace distributes over concatenation. -/
theorem replaceAllChar_append (t : Char) (r a b : Str) :
    replaceAllChar t r (a ++ b) = replaceAllChar t r a ++ replaceAllChar t r b := by
  induction a with
  | nil => rfl
  | cons c cs ih => simp [replaceAllChar, ih]

/-- The chained replaces act characterwise: one input character becomes
escChar of it. -/
theorem convert_cons (c : Char) (s : Str) :
    convert_html_special_chars (c :: s) = escChar c ++ convert_html_special_chars s := by
  by_cases h1 : c = '&'
  · subst h1; rfl
  · by_cases h2 : c = '"'
    · subst h2; rfl
    · by_cases h3 : c = '<'
      · subst h3; rfl
      · by_cases h4 : c = '>'
        · subst h4; rfl
        · show replaceAllChar '>' "&gt;".data (replaceAllChar '<' "&lt;".data
            (replaceAllChar '"' "&quot;".data (replaceAllChar '&' "&amp;".data (c :: s))))
            = escChar c ++ convert_html_special_chars s
          rw [show replaceAllChar '&' "&amp;".data (c :: s)
              = [c] ++ replaceAllChar '&' "&amp;".data s from by
            simp [replaceAllChar, if_neg h1]]
          rw [replaceAllChar_append, replaceAllChar_append, replaceAllChar_append]
          rw [show replaceAllChar '"' "&quot;".data [c] = [c] from by
            simp [replaceAllChar, if_neg h2]]
          rw [show replaceAllChar '<' "&lt;".data [c] = [c] from by
            simp [replaceAllChar, if_neg h3]]
          rw [show replaceAllChar '>' "&gt;".data [c] = [c] from by
            simp [replaceAllChar, if_neg h4]]
          rw [show escChar c = [c] from by simp [escChar, h1, h2, h3, h4]]
          rfl

/-- Characters other than '&' are copied by the unescaper. -/
theorem unescapeChars_cons_ne (c : Char) (X : Str) (h : c ≠ '&') :
    unescapeChars (c :: X) = c :: unescapeChars X := by
  simp [unescapeChars, if_neg h]

theorem unescapeChars_amp (X : Str) :
    unescapeChars ('&' :: ("amp;".data ++ X)) = '&' :: unescapeChars X := by
  simp [unescapeChars, listPref]

theorem unescapeChars_quot (X : Str) :
    unescapeChars ('&' :: ("quot;".data ++ X)) = '"' :: unescapeChars X := by
  simp [unescapeChars, listPref]

theorem unescapeChars_lt (X : Str) :
    unescapeChars ('&' :: ("lt;".data ++ X)) = '<' :: unescapeChars X := by
  simp [unescapeChars, listPref]

theorem unescapeChars_gt (X : Str) :
    unescapeChars ('&' :: ("gt;".data ++ X)) = '>' :: unescapeChars X := by
  simp [unescapeChars, listPref]

/-- Unescaping inverts the characterwise escape. -/
theorem unescape_escape (s : Str) : unescapeChars (convert_html_special_chars s) = s := by
  induction s with
  | nil => simp [convert_html_special_chars, replaceAllChar, unescapeChars]
  | cons c cs ih =>
      rw [convert_cons]
      by_cases h1 : c = '&'
      · subst h1
        show unescapeChars ('&' :: ("amp;".data ++ convert_html_special_chars cs)) = _
        rw [unescapeChars_amp, ih]
      · by_cases h2 : c = '"'
        · subst h2
          show unescapeChars ('&' :: ("quot;".data ++ convert_html_special_chars cs)) = _
          rw [unescapeChars_quot, ih]
        · by_cases h3 : c = '<'
          · subst h3
            show unescapeChars ('&' :: ("lt;".data ++ convert_html_special_chars cs)) = _
            rw [unescapeChars_lt, ih]
          · by_cases h4 : c = '>'
            · subst h4
              show unescapeChars ('&' :: ("gt;".data ++ convert_html_special_chars cs)) = _
              rw [unescapeChars_gt, ih]
            · rw [show escChar c = [c] from by simp [escChar, h1, h2, h3, h4],
                List.singleton_append, unescapeChars_cons_ne c _ h1, ih]

/-- The escaped form carries no raw '"', '<' or '>'. -/
theorem noRawSpecials_escape (s : Str) :
    noRawSpecials (convert_html_special_chars s) = true := by
  induction s with
  | nil => simp [convert_html_special_chars, replaceAllChar, noRawSpecials]
  | cons c cs ih =>
      rw [convert_cons]
      rw [noRawSpecials] at ih ⊢
      rw [List.all_append]
      rw [ih, Bool.and_true]
      by_cases h1 : c = '&'
      · subst h1; rfl
      · by_cases h2 : c = '"'
        · subst h2; rfl
        · by_cases h3 : c = '<'
          · subst h3; rfl
          · by_cases h4 : c = '>'
            · subst h4; rfl
            · rw [show escChar c = [c] from by simp [escChar, h1, h2, h3, h4]]
              simp [h2, h3, h4]

theorem ampEntitiesOnly_cons_ne (c : Char) (X : Str) (h : c ≠ '&') :
    ampEntitiesOnly (c :: X) = ampEntitiesOnly X := by
  simp [ampEntitiesOnly, if_neg h]

theorem ampEntitiesOnly_amp (X : Str) :
    ampEntitiesOnly ('&' :: ("amp;".data ++ X)) = ampEntitiesOnly X := by
  simp [ampEntitiesOnly, listPref]

theorem ampEntitiesOnly_quot (X : Str) :
    ampEntitiesOnly ('&' :: ("quot;".data ++ X)) = ampEntitiesOnly X := by
  simp [ampEntitiesOnly, listPref]

theorem ampEntitiesOnly_lt (X : Str) :
    ampEntitiesOnly ('&' :: ("lt;".data ++ X)) = ampEntitiesOnly X := by
  simp [ampEntitiesOnly, listPref]

theorem ampEntitiesOnly_gt (X : Str) :
    ampEntitiesOnly ('&' :: ("gt;".data ++ X)) = ampEntitiesOnly X := by
  simp [ampEntitiesOnly, listPref]

/-- Every ampersand of the escaped form starts one of the four entities. -/
theorem ampEntitiesOnly_escape (s : Str) :
    ampEntitiesOnly (convert_html_special_chars s) = true := by
  induction s with
  | nil => simp [convert_html_special_chars, replaceAllChar, ampEntitiesOnly]
  | cons c cs ih =>
      rw [convert_cons]
      by_cases h1 : c = '&'
      · subst h1
        show ampEntitiesOnly ('&' :: ("amp;".data ++ convert_html_special_chars cs)) = true
        rw [ampEntitiesOnly_amp, ih]
      · by_cases h2 : c = '"'
        · subst h2
          show ampEntitiesOnly ('&' :: ("quot;".data ++ convert_html_special_chars cs)) = true
          rw [ampEntitiesOnly_quot, ih]
        · by_cases h3 : c = '<'
          · subst h3
            show ampEntitiesOnly ('&' :: ("lt;".data ++ convert_html_special_chars cs)) = true
            rw [ampEntitiesOnly_lt, ih]
          · by_cases h4 : c = '>'
            · subst h4
              show ampEntitiesOnly ('&' :: ("gt;".data ++ convert_html_special_chars cs)) = true
              rw [ampEntitiesOnly_gt, ih]
            · rw [show escChar c = [c] from by simp [escChar, h1, h2, h3, h4],
                List.singleton_append, ampEntitiesOnly_cons_ne c _ h1, ih]

/-- C9: for every location string, the escaped form stored in the record
(and written verbatim into the loc element by _create_sitemap_file)
escapes all four special characters - it contains no raw '"', '<' or '>'
and every '&' begins one of the entities amp/quot/lt/gt - and the
inverse HTML-entity unescaping restores the original string exactly.
This holds for all strings, in particular those containing any of
'&', '"', '<', '>'. -/
theorem claim_C9_escape_round_trip (s : Str) :
    unescapeChars (convert_html_special_chars s) = s ∧
    noRawSpecials (convert_html_special_chars s) = true ∧
    ampEntitiesOnly (convert_html_special_chars s) = true :=
  ⟨unescape_escape s, noRawSpecials_escape s, ampEntitiesOnly_escape s⟩

/-- C7 witness: the absolute-path part of the amended claim at the
concrete path /p/../../q, whose result /q keeps the leading slash. -/
theorem claim_C7_lexical_resolution_witness :
    listPref ['/'] "/p/../../q".data = true ∧
    listPref ['/'] (resolve_url_path "/p/../../q".data) = true :=
  ⟨by decide, claim_C7_lexical_resolution.1 "/p/../../q".data (by decide)⟩
